import Mathlib

/-!
Verification of the bounded link-traversal crawl engine of the
brave-deep-research-mcp repository.

The development shallowly embeds the TypeScript sources:

* `src/services/puppeteer.ts` (provided as `src/unnamed/part_001`):
  `extractContentFromUrl` and `performDeepSearch`, the traversal engine
  actually wired to the `deep-search` tool;
* `src/content-extractor.ts`: the class-based `ContentExtractor` with
  `extractContent`, `extractMainContent` and `extractLinks`;
* `src/utils/content-extractor.ts`: the utils variant `extractMainContent`
  and `extractLinks` used by `extractContentFromUrl`;
* `src/tools/deep-search.ts`: the `deep-search` tool handler parameter
  clamping.

External effects are made explicit:

* The network/browser world is a `FetchEnv`, mapping each URL to the
  behavior its fetch exhibits (`newPage` failing, navigation failing,
  in-page evaluation failing, or success with extracted data).
* DOM documents are records of the data the extractors read from them
  (anchors with href/text, the location href and origin, and for the
  main-content selection a map from CSS selector to the text contents of
  its matches in document order).
* URL resolution (`new URL(href, base)`) is an abstract parameter
  `resolve`.

Traversal functions additionally return an instrumentation trace (the
fetch attempts with their depths, the dequeue depth of every result, and
the number of loop iterations); the un-instrumented functions are the
projections matching the TypeScript return values.
-/

/-- A hyperlink as produced by the link extractors: `{ url, text }`. -/
structure Link where
  url : String
  text : String
deriving Repr, DecidableEq

/-- `PageContent` of `src/services/puppeteer.ts`:
`{ url, title, description, content, links }`.  Note: no error field. -/
structure PageContent where
  url : String
  title : String
  description : String
  content : String
  links : List Link
deriving Repr, DecidableEq

/-- `ExtractedContent` of `src/content-extractor.ts`:
`{ url, title, content, links, error? }`. -/
structure ExtractedContent where
  url : String
  title : String
  content : String
  links : List Link
  error : Option String
deriving Repr, DecidableEq

/-- Behavior of the external browser/network world when one URL is
fetched: acquiring the page can fail, navigation (goto / setUserAgent /
timeout) can fail, in-page evaluation can fail, or everything succeeds
and yields the extracted title, description, main content and links. -/
inductive FetchBehavior where
  | newPageFails (msg : String)
  | navFails (msg : String)
  | evalFails (msg : String)
  | ok (title description content : String) (links : List Link)
deriving Repr, DecidableEq

/-- The external world for a traversal: what fetching each URL does. -/
def FetchEnv : Type := String → FetchBehavior

/-- Page-resource lifecycle events observable during one fetch call. -/
inductive PageEvent where
  | acquire
  | close
deriving Repr, DecidableEq

/-- `extractContentFromUrl` of `src/services/puppeteer.ts`, instrumented
with its page-lifecycle event trace.  The source acquires a page with
`browser.newPage()`, works inside `try ... catch (error) { throw error }
finally { await page.close() }`: if `newPage` itself fails no page is
acquired and the error propagates; any later failure closes the page in
the `finally` block and is rethrown; success closes the page and returns
the `PageContent`.  A thrown error is modelled as `Except.error`. -/
def extractContentFromUrlRun (env : FetchEnv) (url : String) :
    List PageEvent × Except String PageContent :=
  match env url with
  | .newPageFails m => ([], .error m)
  | .navFails m => ([.acquire, .close], .error m)
  | .evalFails m => ([.acquire, .close], .error m)
  | .ok t de c ls => ([.acquire, .close], .ok ⟨url, t, de, c, ls⟩)

/-- `extractContentFromUrl` proper: the value returned (or thrown, as
`Except.error`) to the caller. -/
def extractContentFromUrl (env : FetchEnv) (url : String) :
    Except String PageContent :=
  (extractContentFromUrlRun env url).2

namespace ContentExtractor

/-- `ContentExtractor.extractContent` of `src/content-extractor.ts`,
instrumented with its page-lifecycle event trace.  The source sets
`page = null`, acquires inside the `try`, catches every error and
returns the url, the title "Error", empty content and links, and the
failure message in the error field, and in
`finally` closes the page when one was acquired.  It never throws. -/
def extractContentRun (env : FetchEnv) (url : String) :
    List PageEvent × ExtractedContent :=
  match env url with
  | .newPageFails m => ([], ⟨url, "Error", "", [], some m⟩)
  | .navFails m => ([.acquire, .close], ⟨url, "Error", "", [], some m⟩)
  | .evalFails m => ([.acquire, .close], ⟨url, "Error", "", [], some m⟩)
  | .ok t _ c ls => ([.acquire, .close], ⟨url, t, c, ls, none⟩)

/-- `ContentExtractor.extractContent` proper: the returned value. -/
def extractContent (env : FetchEnv) (url : String) : ExtractedContent :=
  (extractContentRun env url).2

end ContentExtractor

/-- `DeepSearchOptions` of `src/services/puppeteer.ts`:
`{ depth?, maxPages? }`. -/
structure DeepSearchOptions where
  depth : Option Nat
  maxPages : Option Nat
deriving Repr, DecidableEq

/-- JavaScript `options.x || d`: an absent value and the falsy `0` both
give the default. -/
def jsOr (v : Option Nat) (d : Nat) : Nat :=
  match v with
  | none => d
  | some n => if n = 0 then d else n

/-- Instrumented outcome of the traversal loop: the results paired with
the depth at which each was dequeued, the fetch attempts `(url, depth)`
in order, and the number of loop iterations executed. -/
structure CrawlRun where
  results : List (PageContent × Nat)
  fetched : List (String × Nat)
  steps : Nat
deriving Repr, DecidableEq

/-- The `while` loop of `performDeepSearch` (`src/services/puppeteer.ts`
lines 78-109).  Guard: `queue.length > 0 && results.length < maxPages`.
Body: dequeue `(url, currentDepth)`; `continue` when the URL is visited
(or the budget is already met); otherwise add the URL to the visited set
and fetch it; a thrown fetch error is caught and the loop continues; on
success push the page onto `results` and, when `currentDepth < depth`,
enqueue its not-yet-visited links at `currentDepth + 1`. -/
def deepSearchGo (env : FetchEnv) (depth maxPages : Nat) :
    List (String × Nat) → List String → List (PageContent × Nat) →
    List (String × Nat) → CrawlRun
  | [], _, resultsD, fetched => ⟨resultsD, fetched, 0⟩
  | (url, d) :: rest, visited, resultsD, fetched =>
    if resultsD.length < maxPages then
      if visited.contains url ∨ maxPages ≤ resultsD.length then
        let r := deepSearchGo env depth maxPages rest visited resultsD fetched
        ⟨r.results, r.fetched, r.steps + 1⟩
      else
        let visited2 := url :: visited
        let fetched2 := fetched ++ [(url, d)]
        match extractContentFromUrl env url with
        | .error _ =>
          let r := deepSearchGo env depth maxPages rest visited2 resultsD fetched2
          ⟨r.results, r.fetched, r.steps + 1⟩
        | .ok page =>
          let resultsD2 := resultsD ++ [(page, d)]
          if d < depth then
            let linked := (page.links.filter (fun l => ¬ visited2.contains l.url)).map
              (fun l => (l.url, d + 1))
            let r := deepSearchGo env depth maxPages (rest ++ linked) visited2 resultsD2 fetched2
            ⟨r.results, r.fetched, r.steps + 1⟩
          else
            let r := deepSearchGo env depth maxPages rest visited2 resultsD2 fetched2
            ⟨r.results, r.fetched, r.steps + 1⟩
    else ⟨resultsD, fetched, 0⟩
termination_by queue _ resultsD _ => (maxPages - resultsD.length, queue.length)
decreasing_by
  all_goals simp_all [Prod.lex_iff]
  all_goals omega

/-- `performDeepSearch` of `src/services/puppeteer.ts`, instrumented.
Defaults `depth = options.depth || 1`, `maxPages = options.maxPages || 5`;
the queue is seeded with the initial URLs at depth `1` in order. -/
def performDeepSearchRun (env : FetchEnv) (initialUrls : List String)
    (options : DeepSearchOptions) : CrawlRun :=
  deepSearchGo env (jsOr options.depth 1) (jsOr options.maxPages 5)
    (initialUrls.map (fun u => (u, 1))) [] [] []

/-- `performDeepSearch` proper: the list of `PageContent` it returns. -/
def performDeepSearch (env : FetchEnv) (initialUrls : List String)
    (options : DeepSearchOptions) : List PageContent :=
  (performDeepSearchRun env initialUrls options).results.map Prod.fst

lemma deepSearchGo_nil (env : FetchEnv) (depth maxPages : Nat)
    (visited : List String) (resultsD : List (PageContent × Nat))
    (fetched : List (String × Nat)) :
    deepSearchGo env depth maxPages [] visited resultsD fetched =
      ⟨resultsD, fetched, 0⟩ := by
  simp [deepSearchGo]

lemma deepSearchGo_stop (env : FetchEnv) (depth maxPages : Nat)
    (url : String) (d : Nat) (rest : List (String × Nat))
    (visited : List String) (resultsD : List (PageContent × Nat))
    (fetched : List (String × Nat))
    (h : ¬ resultsD.length < maxPages) :
    deepSearchGo env depth maxPages ((url, d) :: rest) visited resultsD fetched =
      ⟨resultsD, fetched, 0⟩ := by
  simp only [deepSearchGo, if_neg h]

lemma deepSearchGo_skip (env : FetchEnv) (depth maxPages : Nat)
    (url : String) (d : Nat) (rest : List (String × Nat))
    (visited : List String) (resultsD : List (PageContent × Nat))
    (fetched : List (String × Nat))
    (h1 : resultsD.length < maxPages)
    (h2 : visited.contains url ∨ maxPages ≤ resultsD.length) :
    deepSearchGo env depth maxPages ((url, d) :: rest) visited resultsD fetched =
      let r := deepSearchGo env depth maxPages rest visited resultsD fetched
      ⟨r.results, r.fetched, r.steps + 1⟩ := by
  simp only [deepSearchGo, if_pos h1, if_pos h2]

lemma deepSearchGo_err (env : FetchEnv) (depth maxPages : Nat)
    (url : String) (d : Nat) (rest : List (String × Nat))
    (visited : List String) (resultsD : List (PageContent × Nat))
    (fetched : List (String × Nat)) (m : String)
    (h1 : resultsD.length < maxPages)
    (h2 : ¬ (visited.contains url ∨ maxPages ≤ resultsD.length))
    (h3 : extractContentFromUrl env url = .error m) :
    deepSearchGo env depth maxPages ((url, d) :: rest) visited resultsD fetched =
      let r := deepSearchGo env depth maxPages rest (url :: visited) resultsD
        (fetched ++ [(url, d)])
      ⟨r.results, r.fetched, r.steps + 1⟩ := by
  simp only [deepSearchGo, if_pos h1, if_neg h2, h3]

lemma deepSearchGo_ok_expand (env : FetchEnv) (depth maxPages : Nat)
    (url : String) (d : Nat) (rest : List (String × Nat))
    (visited : List String) (resultsD : List (PageContent × Nat))
    (fetched : List (String × Nat)) (page : PageContent)
    (h1 : resultsD.length < maxPages)
    (h2 : ¬ (visited.contains url ∨ maxPages ≤ resultsD.length))
    (h3 : extractContentFromUrl env url = .ok page)
    (h4 : d < depth) :
    deepSearchGo env depth maxPages ((url, d) :: rest) visited resultsD fetched =
      let r := deepSearchGo env depth maxPages
        (rest ++ (page.links.filter (fun l => ¬ (url :: visited).contains l.url)).map
          (fun l => (l.url, d + 1)))
        (url :: visited) (resultsD ++ [(page, d)]) (fetched ++ [(url, d)])
      ⟨r.results, r.fetched, r.steps + 1⟩ := by
  simp only [deepSearchGo, if_pos h1, if_neg h2, h3, if_pos h4]

lemma deepSearchGo_ok_last (env : FetchEnv) (depth maxPages : Nat)
    (url : String) (d : Nat) (rest : List (String × Nat))
    (visited : List String) (resultsD : List (PageContent × Nat))
    (fetched : List (String × Nat)) (page : PageContent)
    (h1 : resultsD.length < maxPages)
    (h2 : ¬ (visited.contains url ∨ maxPages ≤ resultsD.length))
    (h3 : extractContentFromUrl env url = .ok page)
    (h4 : ¬ d < depth) :
    deepSearchGo env depth maxPages ((url, d) :: rest) visited resultsD fetched =
      let r := deepSearchGo env depth maxPages rest (url :: visited)
        (resultsD ++ [(page, d)]) (fetched ++ [(url, d)])
      ⟨r.results, r.fetched, r.steps + 1⟩ := by
  simp only [deepSearchGo, if_pos h1, if_neg h2, h3, if_neg h4]

lemma extractContentFromUrl_ok_url (env : FetchEnv) (url : String)
    (page : PageContent) (h : extractContentFromUrl env url = .ok page) :
    page.url = url := by
  unfold extractContentFromUrl extractContentFromUrlRun at h
  cases henv : env url <;> rw [henv] at h <;> simp_all
  exact (congrArg PageContent.url h.symm)

lemma extractContentFromUrl_ok_env (env : FetchEnv) (url : String)
    (page : PageContent) (h : extractContentFromUrl env url = .ok page) :
    env page.url = .ok page.title page.description page.content page.links := by
  unfold extractContentFromUrl extractContentFromUrlRun at h
  cases henv : env url <;> rw [henv] at h <;> simp_all
  rw [← h]
  exact henv

lemma deepSearchGo_length_le (env : FetchEnv) (depth maxPages : Nat)
    (queue : List (String × Nat)) (visited : List String)
    (resultsD : List (PageContent × Nat)) (fetched : List (String × Nat))
    (h : resultsD.length ≤ maxPages) :
    (deepSearchGo env depth maxPages queue visited resultsD fetched).results.length ≤
      maxPages := by
  induction queue, visited, resultsD, fetched using deepSearchGo.induct env depth maxPages with
  | case1 visited resultsD fetched =>
    rw [deepSearchGo_nil]
    exact h
  | case2 url d rest visited resultsD fetched h1 h2 ih =>
    rw [deepSearchGo_skip env depth maxPages url d rest visited resultsD fetched h1 h2]
    exact ih h
  | case3 url d rest visited resultsD fetched h1 h2 visited2 fetched2 m h3 ih =>
    rw [deepSearchGo_err env depth maxPages url d rest visited resultsD fetched m h1 h2 h3]
    unfold_let visited2 fetched2 at ih
    exact ih h
  | case4 url d rest visited resultsD fetched h1 h2 visited2 fetched2 page h3 resultsD2 h4 linked ih =>
    rw [deepSearchGo_ok_expand env depth maxPages url d rest visited resultsD fetched page h1 h2 h3 h4]
    unfold_let resultsD2 at ih
    exact ih (by simp; omega)
  | case5 url d rest visited resultsD fetched h1 h2 visited2 fetched2 page h3 resultsD2 h4 ih =>
    rw [deepSearchGo_ok_last env depth maxPages url d rest visited resultsD fetched page h1 h2 h3 h4]
    unfold_let resultsD2 at ih
    exact ih (by simp; omega)
  | case6 url d rest visited resultsD fetched h1 =>
    rw [deepSearchGo_stop env depth maxPages url d rest visited resultsD fetched h1]
    exact h

lemma deepSearchGo_nodup (env : FetchEnv) (depth maxPages : Nat)
    (queue : List (String × Nat)) (visited : List String)
    (resultsD : List (PageContent × Nat)) (fetched : List (String × Nat))
    (hres : ∀ p ∈ resultsD, p.1.url ∈ visited)
    (hresN : (resultsD.map (fun p => p.1.url)).Nodup)
    (hfet : ∀ f ∈ fetched, f.1 ∈ visited)
    (hfetN : (fetched.map Prod.fst).Nodup) :
    ((deepSearchGo env depth maxPages queue visited resultsD fetched).results.map
      (fun p => p.1.url)).Nodup ∧
    ((deepSearchGo env depth maxPages queue visited resultsD fetched).fetched.map
      Prod.fst).Nodup := by
  induction queue, visited, resultsD, fetched using deepSearchGo.induct env depth maxPages with
  | case1 visited resultsD fetched =>
    rw [deepSearchGo_nil]
    exact ⟨hresN, hfetN⟩
  | case2 url d rest visited resultsD fetched h1 h2 ih =>
    rw [deepSearchGo_skip env depth maxPages url d rest visited resultsD fetched h1 h2]
    exact ih hres hresN hfet hfetN
  | case3 url d rest visited resultsD fetched h1 h2 visited2 fetched2 m h3 ih =>
    rw [deepSearchGo_err env depth maxPages url d rest visited resultsD fetched m h1 h2 h3]
    unfold_let visited2 fetched2 at ih
    have hnv : url ∉ visited := by simp at h2; exact h2.1
    refine ih (fun p hp => List.mem_cons_of_mem _ (hres p hp)) hresN ?_ ?_
    · intro f hf
      rcases List.mem_append.mp hf with hf | hf
      · exact List.mem_cons_of_mem _ (hfet f hf)
      · simp at hf
        simp [hf]
    · simp only [List.map_append, List.map_cons, List.map_nil]
      rw [List.nodup_append]
      refine ⟨hfetN, List.nodup_singleton _, ?_⟩
      intro a ha hb
      simp at hb
      rcases List.mem_map.mp ha with ⟨f, hf, hfa⟩
      exact hnv (hb ▸ hfa ▸ hfet f hf)
  | case4 url d rest visited resultsD fetched h1 h2 visited2 fetched2 page h3 resultsD2 h4 linked ih =>
    rw [deepSearchGo_ok_expand env depth maxPages url d rest visited resultsD fetched page h1 h2 h3 h4]
    unfold_let visited2 fetched2 resultsD2 linked at ih
    have hnv : url ∉ visited := by simp at h2; exact h2.1
    have hpu : page.url = url := extractContentFromUrl_ok_url env url page h3
    refine ih ?_ ?_ ?_ ?_
    · intro p hp
      rcases List.mem_append.mp hp with hp | hp
      · exact List.mem_cons_of_mem _ (hres p hp)
      · simp at hp
        simp [hp, hpu]
    · simp only [List.map_append, List.map_cons, List.map_nil]
      rw [List.nodup_append]
      refine ⟨hresN, List.nodup_singleton _, ?_⟩
      intro a ha hb
      simp [hpu] at hb
      rcases List.mem_map.mp ha with ⟨p, hp, hpa⟩
      exact hnv (hb ▸ hpa ▸ hres p hp)
    · intro f hf
      rcases List.mem_append.mp hf with hf | hf
      · exact List.mem_cons_of_mem _ (hfet f hf)
      · simp at hf
        simp [hf]
    · simp only [List.map_append, List.map_cons, List.map_nil]
      rw [List.nodup_append]
      refine ⟨hfetN, List.nodup_singleton _, ?_⟩
      intro a ha hb
      simp at hb
      rcases List.mem_map.mp ha with ⟨f, hf, hfa⟩
      exact hnv (hb ▸ hfa ▸ hfet f hf)
  | case5 url d rest visited resultsD fetched h1 h2 visited2 fetched2 page h3 resultsD2 h4 ih =>
    rw [deepSearchGo_ok_last env depth maxPages url d rest visited resultsD fetched page h1 h2 h3 h4]
    unfold_let visited2 fetched2 resultsD2 at ih
    have hnv : url ∉ visited := by simp at h2; exact h2.1
    have hpu : page.url = url := extractContentFromUrl_ok_url env url page h3
    refine ih ?_ ?_ ?_ ?_
    · intro p hp
      rcases List.mem_append.mp hp with hp | hp
      · exact List.mem_cons_of_mem _ (hres p hp)
      · simp at hp
        simp [hp, hpu]
    · simp only [List.map_append, List.map_cons, List.map_nil]
      rw [List.nodup_append]
      refine ⟨hresN, List.nodup_singleton _, ?_⟩
      intro a ha hb
      simp [hpu] at hb
      rcases List.mem_map.mp ha with ⟨p, hp, hpa⟩
      exact hnv (hb ▸ hpa ▸ hres p hp)
    · intro f hf
      rcases List.mem_append.mp hf with hf | hf
      · exact List.mem_cons_of_mem _ (hfet f hf)
      · simp at hf
        simp [hf]
    · simp only [List.map_append, List.map_cons, List.map_nil]
      rw [List.nodup_append]
      refine ⟨hfetN, List.nodup_singleton _, ?_⟩
      intro a ha hb
      simp at hb
      rcases List.mem_map.mp ha with ⟨f, hf, hfa⟩
      exact hnv (hb ▸ hfa ▸ hfet f hf)
  | case6 url d rest visited resultsD fetched h1 =>
    rw [deepSearchGo_stop env depth maxPages url d rest visited resultsD fetched h1]
    exact ⟨hresN, hfetN⟩

lemma deepSearchGo_results_ok (env : FetchEnv) (depth maxPages : Nat)
    (queue : List (String × Nat)) (visited : List String)
    (resultsD : List (PageContent × Nat)) (fetched : List (String × Nat))
    (h : ∀ p ∈ resultsD, env p.1.url = .ok p.1.title p.1.description p.1.content p.1.links) :
    ∀ p ∈ (deepSearchGo env depth maxPages queue visited resultsD fetched).results,
      env p.1.url = .ok p.1.title p.1.description p.1.content p.1.links := by
  induction queue, visited, resultsD, fetched using deepSearchGo.induct env depth maxPages with
  | case1 visited resultsD fetched =>
    rw [deepSearchGo_nil]
    exact h
  | case2 url d rest visited resultsD fetched h1 h2 ih =>
    rw [deepSearchGo_skip env depth maxPages url d rest visited resultsD fetched h1 h2]
    exact ih h
  | case3 url d rest visited resultsD fetched h1 h2 visited2 fetched2 m h3 ih =>
    rw [deepSearchGo_err env depth maxPages url d rest visited resultsD fetched m h1 h2 h3]
    unfold_let visited2 fetched2 at ih
    exact ih h
  | case4 url d rest visited resultsD fetched h1 h2 visited2 fetched2 page h3 resultsD2 h4 linked ih =>
    rw [deepSearchGo_ok_expand env depth maxPages url d rest visited resultsD fetched page h1 h2 h3 h4]
    unfold_let visited2 fetched2 resultsD2 linked at ih
    refine ih ?_
    intro p hp
    rcases List.mem_append.mp hp with hp | hp
    · exact h p hp
    · simp at hp
      rw [hp]
      exact extractContentFromUrl_ok_env env url page h3
  | case5 url d rest visited resultsD fetched h1 h2 visited2 fetched2 page h3 resultsD2 h4 ih =>
    rw [deepSearchGo_ok_last env depth maxPages url d rest visited resultsD fetched page h1 h2 h3 h4]
    unfold_let visited2 fetched2 resultsD2 at ih
    refine ih ?_
    intro p hp
    rcases List.mem_append.mp hp with hp | hp
    · exact h p hp
    · simp at hp
      rw [hp]
      exact extractContentFromUrl_ok_env env url page h3
  | case6 url d rest visited resultsD fetched h1 =>
    rw [deepSearchGo_stop env depth maxPages url d rest visited resultsD fetched h1]
    exact h

lemma deepSearchGo_fetched_mono (env : FetchEnv) (depth maxPages : Nat)
    (queue : List (String × Nat)) (visited : List String)
    (resultsD : List (PageContent × Nat)) (fetched : List (String × Nat)) :
    ∃ t, (deepSearchGo env depth maxPages queue visited resultsD fetched).fetched =
      fetched ++ t := by
  induction queue, visited, resultsD, fetched using deepSearchGo.induct env depth maxPages with
  | case1 visited resultsD fetched =>
    rw [deepSearchGo_nil]
    exact ⟨[], by simp⟩
  | case2 url d rest visited resultsD fetched h1 h2 ih =>
    rw [deepSearchGo_skip env depth maxPages url d rest visited resultsD fetched h1 h2]
    exact ih
  | case3 url d rest visited resultsD fetched h1 h2 visited2 fetched2 m h3 ih =>
    rw [deepSearchGo_err env depth maxPages url d rest visited resultsD fetched m h1 h2 h3]
    unfold_let visited2 fetched2 at ih
    rcases ih with ⟨t, ht⟩
    exact ⟨(url, d) :: t, by simp [ht]⟩
  | case4 url d rest visited resultsD fetched h1 h2 visited2 fetched2 page h3 resultsD2 h4 linked ih =>
    rw [deepSearchGo_ok_expand env depth maxPages url d rest visited resultsD fetched page h1 h2 h3 h4]
    unfold_let visited2 fetched2 resultsD2 linked at ih
    rcases ih with ⟨t, ht⟩
    exact ⟨(url, d) :: t, by rw [ht]; simp⟩
  | case5 url d rest visited resultsD fetched h1 h2 visited2 fetched2 page h3 resultsD2 h4 ih =>
    rw [deepSearchGo_ok_last env depth maxPages url d rest visited resultsD fetched page h1 h2 h3 h4]
    unfold_let visited2 fetched2 resultsD2 at ih
    rcases ih with ⟨t, ht⟩
    exact ⟨(url, d) :: t, by simp [ht]⟩
  | case6 url d rest visited resultsD fetched h1 =>
    rw [deepSearchGo_stop env depth maxPages url d rest visited resultsD fetched h1]
    exact ⟨[], by simp⟩

lemma map_snd_map_pair (xs : List Link) (c : Nat) :
    ((xs.map (fun l => (l.url, c))).map Prod.snd) = List.replicate xs.length c := by
  induction xs with
  | nil => simp
  | cons x xs ih => simp [ih, List.replicate_succ]

lemma deepSearchGo_pairwise (env : FetchEnv) (depth maxPages : Nat)
    (queue : List (String × Nat)) (visited : List String)
    (resultsD : List (PageContent × Nat)) (fetched : List (String × Nat))
    (h1 : List.Pairwise (· ≤ ·) (resultsD.map (fun p => p.2) ++ queue.map Prod.snd))
    (h2 : ∀ a ∈ queue, ∀ b ∈ queue.head?, a.2 ≤ b.2 + 1) :
    List.Pairwise (· ≤ ·)
      ((deepSearchGo env depth maxPages queue visited resultsD fetched).results.map
        (fun p => p.2)) := by
  induction queue, visited, resultsD, fetched using deepSearchGo.induct env depth maxPages with
  | case1 visited resultsD fetched =>
    rw [deepSearchGo_nil]
    simpa using h1
  | case2 url d rest visited resultsD fetched hg1 hg2 ih =>
    rw [deepSearchGo_skip env depth maxPages url d rest visited resultsD fetched hg1 hg2]
    simp only [List.map_cons] at h1
    have hsec : List.Pairwise (· ≤ ·) ((url, d).2 :: rest.map Prod.snd) :=
      (List.pairwise_append.mp h1).2.1
    have hd_le : ∀ x ∈ rest.map Prod.snd, (url, d).2 ≤ x := (List.pairwise_cons.mp hsec).1
    refine ih ?_ ?_
    · exact List.Pairwise.sublist ((List.sublist_cons_self _ _).append_left _) h1
    · intro a ha b hb
      cases rest with
      | nil => simp at hb
      | cons q qs =>
        simp only [List.head?_cons, Option.mem_def, Option.some.injEq] at hb
        have haq : a.2 ≤ (url, d).2 + 1 := h2 a (List.mem_cons_of_mem _ ha) (url, d) (by simp)
        have hdq : (url, d).2 ≤ q.2 := hd_le q.2 (by simp)
        subst hb
        omega
  | case3 url d rest visited resultsD fetched hg1 hg2 visited2 fetched2 m h3 ih =>
    rw [deepSearchGo_err env depth maxPages url d rest visited resultsD fetched m hg1 hg2 h3]
    unfold_let visited2 fetched2 at ih
    simp only [List.map_cons] at h1
    have hsec : List.Pairwise (· ≤ ·) ((url, d).2 :: rest.map Prod.snd) :=
      (List.pairwise_append.mp h1).2.1
    have hd_le : ∀ x ∈ rest.map Prod.snd, (url, d).2 ≤ x := (List.pairwise_cons.mp hsec).1
    refine ih ?_ ?_
    · exact List.Pairwise.sublist ((List.sublist_cons_self _ _).append_left _) h1
    · intro a ha b hb
      cases rest with
      | nil => simp at hb
      | cons q qs =>
        simp only [List.head?_cons, Option.mem_def, Option.some.injEq] at hb
        have haq : a.2 ≤ (url, d).2 + 1 := h2 a (List.mem_cons_of_mem _ ha) (url, d) (by simp)
        have hdq : (url, d).2 ≤ q.2 := hd_le q.2 (by simp)
        subst hb
        omega
  | case4 url d rest visited resultsD fetched hg1 hg2 visited2 fetched2 page h3 resultsD2 h4 linked ih =>
    rw [deepSearchGo_ok_expand env depth maxPages url d rest visited resultsD fetched page hg1 hg2 h3 h4]
    unfold_let visited2 fetched2 resultsD2 linked at ih
    simp only [List.map_cons] at h1
    have hsec : List.Pairwise (· ≤ ·) ((url, d).2 :: rest.map Prod.snd) :=
      (List.pairwise_append.mp h1).2.1
    have hd_le : ∀ x ∈ rest.map Prod.snd, (url, d).2 ≤ x := (List.pairwise_cons.mp hsec).1
    have hcross : ∀ x ∈ resultsD.map (fun p => p.2), ∀ y ∈ (url, d).2 :: rest.map Prod.snd, x ≤ y :=
      (List.pairwise_append.mp h1).2.2
    have hrest_le : ∀ a ∈ rest, a.2 ≤ d + 1 := by
      intro a ha
      exact h2 a (List.mem_cons_of_mem _ ha) (url, d) (by simp)
    have hlinkmem : ∀ a ∈ (page.links.filter
        (fun l => ¬ (url :: visited).contains l.url)).map (fun l => (l.url, d + 1)), a.2 = d + 1 := by
      intro a ha
      rcases List.mem_map.mp ha with ⟨l, _, hla⟩
      rw [← hla]
    refine ih ?_ ?_
    · simp only [List.map_append, List.map_cons, List.map_nil, map_snd_map_pair]
      rw [List.append_assoc, List.singleton_append, ← List.cons_append]
      rw [List.pairwise_append]
      refine ⟨(List.pairwise_append.mp h1).1, ?_, ?_⟩
      · rw [List.pairwise_append]
        refine ⟨hsec, ?_, ?_⟩
        · rw [List.pairwise_replicate]
          exact Or.inr (le_refl _)
        · intro x hx y hy
          rcases List.mem_replicate.mp hy with ⟨-, hy⟩
          subst hy
          rcases List.mem_cons.mp hx with hx | hx
          · subst hx
            omega
          · rcases List.mem_map.mp hx with ⟨a, ha, hax⟩
            have := hrest_le a ha
            subst hax
            omega
      · intro x hx y hy
        rcases List.mem_append.mp hy with hy | hy
        · exact hcross x hx y hy
        · rcases List.mem_replicate.mp hy with ⟨-, hy⟩
          subst hy
          have h9 : x ≤ d := hcross x hx d (by simp)
          omega
    · intro a ha b hb
      cases hrest : rest with
      | nil =>
        subst hrest
        simp only [List.nil_append] at ha hb
        have hb2 : b.2 = d + 1 := hlinkmem b (List.mem_of_mem_head? hb)
        have ha2 : a.2 = d + 1 := hlinkmem a ha
        omega
      | cons q qs =>
        subst hrest
        simp only [List.cons_append, List.head?_cons, Option.mem_def, Option.some.injEq] at hb
        have hdq : (url, d).2 ≤ q.2 := hd_le q.2 (by simp)
        rw [← hb]
        rcases List.mem_append.mp ha with ha | ha
        · have := hrest_le a ha
          omega
        · have := hlinkmem a ha
          omega
  | case5 url d rest visited resultsD fetched hg1 hg2 visited2 fetched2 page h3 resultsD2 h4 ih =>
    rw [deepSearchGo_ok_last env depth maxPages url d rest visited resultsD fetched page hg1 hg2 h3 h4]
    unfold_let visited2 fetched2 resultsD2 at ih
    simp only [List.map_cons] at h1
    have hsec : List.Pairwise (· ≤ ·) ((url, d).2 :: rest.map Prod.snd) :=
      (List.pairwise_append.mp h1).2.1
    have hd_le : ∀ x ∈ rest.map Prod.snd, (url, d).2 ≤ x := (List.pairwise_cons.mp hsec).1
    refine ih ?_ ?_
    · simp only [List.map_append, List.map_cons, List.map_nil]
      have hgoal : (resultsD.map (fun p => p.2) ++ [(page, d).2]) ++ rest.map Prod.snd =
          resultsD.map (fun p => p.2) ++ ((url, d).2 :: rest.map Prod.snd) := by
        simp
      rw [hgoal]
      exact h1
    · intro a ha b hb
      cases rest with
      | nil => simp at hb
      | cons q qs =>
        simp only [List.head?_cons, Option.mem_def, Option.some.injEq] at hb
        have haq : a.2 ≤ (url, d).2 + 1 := h2 a (List.mem_cons_of_mem _ ha) (url, d) (by simp)
        have hdq : (url, d).2 ≤ q.2 := hd_le q.2 (by simp)
        subst hb
        omega
  | case6 url d rest visited resultsD fetched hg1 =>
    rw [deepSearchGo_stop env depth maxPages url d rest visited resultsD fetched hg1]
    exact List.Pairwise.sublist (List.sublist_append_left _ _) h1

/-- Number of links a fetch behavior delivers (zero when the fetch
fails). -/
def linkCount (b : FetchBehavior) : Nat :=
  match b with
  | .ok _ _ _ ls => ls.length
  | _ => 0

lemma extractContentFromUrl_ok_linkCount (env : FetchEnv) (url : String)
    (page : PageContent) (h : extractContentFromUrl env url = .ok page) :
    page.links.length = linkCount (env url) := by
  unfold extractContentFromUrl extractContentFromUrlRun at h
  cases henv : env url <;> rw [henv] at h <;> simp_all [linkCount]
  rw [← h]

lemma deepSearchGo_steps_le (env : FetchEnv) (depth maxPages : Nat)
    (queue : List (String × Nat)) (visited : List String)
    (resultsD : List (PageContent × Nat)) (fetched : List (String × Nat))
    (L : Nat) (hL : ∀ u, linkCount (env u) ≤ L) :
    (deepSearchGo env depth maxPages queue visited resultsD fetched).steps ≤
      queue.length + (maxPages - resultsD.length) * L := by
  induction queue, visited, resultsD, fetched using deepSearchGo.induct env depth maxPages with
  | case1 visited resultsD fetched =>
    rw [deepSearchGo_nil]
    simp
  | case2 url d rest visited resultsD fetched h1 h2 ih =>
    rw [deepSearchGo_skip env depth maxPages url d rest visited resultsD fetched h1 h2]
    show (deepSearchGo env depth maxPages rest visited resultsD fetched).steps + 1 ≤
      ((url, d) :: rest).length + (maxPages - resultsD.length) * L
    simp only [List.length_cons]
    omega
  | case3 url d rest visited resultsD fetched h1 h2 visited2 fetched2 m h3 ih =>
    rw [deepSearchGo_err env depth maxPages url d rest visited resultsD fetched m h1 h2 h3]
    unfold_let visited2 fetched2 at ih
    show (deepSearchGo env depth maxPages rest (url :: visited) resultsD
      (fetched ++ [(url, d)])).steps + 1 ≤
      ((url, d) :: rest).length + (maxPages - resultsD.length) * L
    simp only [List.length_cons]
    omega
  | case4 url d rest visited resultsD fetched h1 h2 visited2 fetched2 page h3 resultsD2 h4 linked ih =>
    rw [deepSearchGo_ok_expand env depth maxPages url d rest visited resultsD fetched page h1 h2 h3 h4]
    unfold_let visited2 fetched2 resultsD2 linked at ih
    show (deepSearchGo env depth maxPages
      (rest ++ (page.links.filter (fun l => ¬ (url :: visited).contains l.url)).map
        (fun l => (l.url, d + 1)))
      (url :: visited) (resultsD ++ [(page, d)]) (fetched ++ [(url, d)])).steps + 1 ≤
      ((url, d) :: rest).length + (maxPages - resultsD.length) * L
    simp only [List.length_cons, List.length_append, List.length_map, List.length_nil, Nat.zero_add] at ih ⊢
    have hlink : (page.links.filter (fun l => ¬ (url :: visited).contains l.url)).length ≤ L := by
      calc (page.links.filter (fun l => ¬ (url :: visited).contains l.url)).length
          ≤ page.links.length := List.length_filter_le _ _
        _ = linkCount (env url) := extractContentFromUrl_ok_linkCount env url page h3
        _ ≤ L := hL url
    have hsub : maxPages - resultsD.length = (maxPages - (resultsD.length + 1)) + 1 := by
      omega
    rw [hsub, Nat.succ_mul]
    omega
  | case5 url d rest visited resultsD fetched h1 h2 visited2 fetched2 page h3 resultsD2 h4 ih =>
    rw [deepSearchGo_ok_last env depth maxPages url d rest visited resultsD fetched page h1 h2 h3 h4]
    unfold_let visited2 fetched2 resultsD2 at ih
    show (deepSearchGo env depth maxPages rest (url :: visited) (resultsD ++ [(page, d)])
      (fetched ++ [(url, d)])).steps + 1 ≤
      ((url, d) :: rest).length + (maxPages - resultsD.length) * L
    simp only [List.length_cons, List.length_append, List.length_map, List.length_nil, Nat.zero_add] at ih ⊢
    have hsub : maxPages - resultsD.length = (maxPages - (resultsD.length + 1)) + 1 := by
      omega
    rw [hsub, Nat.succ_mul]
    omega
  | case6 url d rest visited resultsD fetched h1 =>
    rw [deepSearchGo_stop env depth maxPages url d rest visited resultsD fetched h1]
    simp

lemma deepSearchGo_origin (env : FetchEnv) (depth maxPages : Nat)
    (queue : List (String × Nat)) (visited : List String)
    (resultsD : List (PageContent × Nat)) (fetched : List (String × Nat))
    (R : String → String → Prop) (P : String → Prop)
    (H : ∀ url t de c ls, env url = .ok t de c ls → ∀ l ∈ ls, R url l.url)
    (hq : ∀ e ∈ queue, P e.1 ∨ ∃ g ∈ fetched, R g.1 e.1)
    (hf : ∀ f ∈ fetched, P f.1 ∨ ∃ g ∈ fetched, R g.1 f.1) :
    ∀ f ∈ (deepSearchGo env depth maxPages queue visited resultsD fetched).fetched,
      P f.1 ∨ ∃ g ∈ (deepSearchGo env depth maxPages queue visited resultsD fetched).fetched,
        R g.1 f.1 := by
  induction queue, visited, resultsD, fetched using deepSearchGo.induct env depth maxPages with
  | case1 visited resultsD fetched =>
    rw [deepSearchGo_nil]
    exact hf
  | case2 url d rest visited resultsD fetched h1 h2 ih =>
    rw [deepSearchGo_skip env depth maxPages url d rest visited resultsD fetched h1 h2]
    exact ih (fun e he => hq e (List.mem_cons_of_mem _ he)) hf
  | case3 url d rest visited resultsD fetched h1 h2 visited2 fetched2 m h3 ih =>
    rw [deepSearchGo_err env depth maxPages url d rest visited resultsD fetched m h1 h2 h3]
    unfold_let visited2 fetched2 at ih
    refine ih ?_ ?_
    · intro e he
      rcases hq e (List.mem_cons_of_mem _ he) with hP | ⟨g, hg, hs⟩
      · exact Or.inl hP
      · exact Or.inr ⟨g, List.mem_append_left _ hg, hs⟩
    · intro f hfm
      rcases List.mem_append.mp hfm with hfm | hfm
      · rcases hf f hfm with hP | ⟨g, hg, hs⟩
        · exact Or.inl hP
        · exact Or.inr ⟨g, List.mem_append_left _ hg, hs⟩
      · simp at hfm
        subst hfm
        rcases hq (url, d) (List.mem_cons_self _ _) with hP | ⟨g, hg, hs⟩
        · exact Or.inl hP
        · exact Or.inr ⟨g, List.mem_append_left _ hg, hs⟩
  | case4 url d rest visited resultsD fetched h1 h2 visited2 fetched2 page h3 resultsD2 h4 linked ih =>
    rw [deepSearchGo_ok_expand env depth maxPages url d rest visited resultsD fetched page h1 h2 h3 h4]
    unfold_let visited2 fetched2 resultsD2 linked at ih
    have hpu : page.url = url := extractContentFromUrl_ok_url env url page h3
    have hlinks : ∀ l ∈ page.links, R url l.url := by
      have henv := extractContentFromUrl_ok_env env url page h3
      rw [hpu] at henv
      exact H url page.title page.description page.content page.links henv
    refine ih ?_ ?_
    · intro e he
      rcases List.mem_append.mp he with he | he
      · rcases hq e (List.mem_cons_of_mem _ he) with hP | ⟨g, hg, hs⟩
        · exact Or.inl hP
        · exact Or.inr ⟨g, List.mem_append_left _ hg, hs⟩
      · rcases List.mem_map.mp he with ⟨l, hl, hle⟩
        refine Or.inr ⟨(url, d), List.mem_append_right _ (by simp), ?_⟩
        rw [← hle]
        exact hlinks l (List.mem_of_mem_filter hl)
    · intro f hfm
      rcases List.mem_append.mp hfm with hfm | hfm
      · rcases hf f hfm with hP | ⟨g, hg, hs⟩
        · exact Or.inl hP
        · exact Or.inr ⟨g, List.mem_append_left _ hg, hs⟩
      · simp at hfm
        subst hfm
        rcases hq (url, d) (List.mem_cons_self _ _) with hP | ⟨g, hg, hs⟩
        · exact Or.inl hP
        · exact Or.inr ⟨g, List.mem_append_left _ hg, hs⟩
  | case5 url d rest visited resultsD fetched h1 h2 visited2 fetched2 page h3 resultsD2 h4 ih =>
    rw [deepSearchGo_ok_last env depth maxPages url d rest visited resultsD fetched page h1 h2 h3 h4]
    unfold_let visited2 fetched2 resultsD2 at ih
    refine ih ?_ ?_
    · intro e he
      rcases hq e (List.mem_cons_of_mem _ he) with hP | ⟨g, hg, hs⟩
      · exact Or.inl hP
      · exact Or.inr ⟨g, List.mem_append_left _ hg, hs⟩
    · intro f hfm
      rcases List.mem_append.mp hfm with hfm | hfm
      · rcases hf f hfm with hP | ⟨g, hg, hs⟩
        · exact Or.inl hP
        · exact Or.inr ⟨g, List.mem_append_left _ hg, hs⟩
      · simp at hfm
        subst hfm
        rcases hq (url, d) (List.mem_cons_self _ _) with hP | ⟨g, hg, hs⟩
        · exact Or.inl hP
        · exact Or.inr ⟨g, List.mem_append_left _ hg, hs⟩
  | case6 url d rest visited resultsD fetched h1 =>
    rw [deepSearchGo_stop env depth maxPages url d rest visited resultsD fetched h1]
    exact hf

lemma seeds_map_snd (seeds : List String) :
    (seeds.map (fun u => (u, 1))).map Prod.snd = List.replicate seeds.length 1 := by
  induction seeds with
  | nil => simp
  | cons s ss ih => simp [ih, List.replicate_succ]

/-- An environment in which every fetch fails during navigation. -/
def envFailAll : FetchEnv := fun _ => .navFails "net::ERR_TIMED_OUT"

/-- An environment in which every fetch succeeds and yields no links. -/
def envLinkless : FetchEnv := fun _ => .ok "t" "d" "c" []

/-- Two seed pages each linking to one distinct page, which is terminal:
the breadth-ordering example of the specification. -/
def envBreadth : FetchEnv := fun u =>
  if u = "http://a/" then .ok "A" "" "ca" [⟨"http://a/1", "next"⟩]
  else if u = "http://b/" then .ok "B" "" "cb" [⟨"http://b/1", "next"⟩]
  else if u = "http://a/1" then .ok "A1" "" "ca1" []
  else if u = "http://b/1" then .ok "B1" "" "cb1" []
  else .navFails "missing"

/-- C1: for every traversal of `performDeepSearch` with any seed list,
maxDepth ≥ 1 and maxPages ≥ 1, the result list has length at most
maxPages, no URL appears twice among the results, and no URL is fetched
twice (the URL is added to the visited set when dequeued, before the
fetch, so even link cycles cause at most one fetch attempt per URL). -/
theorem performDeepSearch_budget_dedup (env : FetchEnv) (seeds : List String)
    (depth maxPages : Nat) (hd : 1 ≤ depth) (hp : 1 ≤ maxPages) :
    (performDeepSearch env seeds ⟨some depth, some maxPages⟩).length ≤ maxPages ∧
    ((performDeepSearch env seeds ⟨some depth, some maxPages⟩).map (fun p => p.url)).Nodup ∧
    ((performDeepSearchRun env seeds ⟨some depth, some maxPages⟩).fetched.map
      Prod.fst).Nodup := by
  have hjd : jsOr (some depth) 1 = depth := by
    simp only [jsOr]
    split <;> omega
  have hjp : jsOr (some maxPages) 5 = maxPages := by
    simp only [jsOr]
    split <;> omega
  unfold performDeepSearch performDeepSearchRun
  simp only [hjd, hjp]
  have hnodup := deepSearchGo_nodup env depth maxPages (seeds.map (fun u => (u, 1))) [] [] []
    (by simp) (by simp) (by simp) (by simp)
  refine ⟨?_, ?_, hnodup.2⟩
  · simpa using deepSearchGo_length_le env depth maxPages (seeds.map (fun u => (u, 1))) [] [] []
      (by simp)
  · simpa [List.map_map, Function.comp] using hnodup.1

/-- C1 witness: the theorem applied at a concrete environment, two
seeds, maxDepth 2 and maxPages 3. -/
theorem performDeepSearch_budget_dedup_witness :
    (performDeepSearch envLinkless ["http://a/", "http://b/"] ⟨some 2, some 3⟩).length ≤ 3 ∧
    ((performDeepSearch envLinkless ["http://a/", "http://b/"] ⟨some 2, some 3⟩).map
      (fun p => p.url)).Nodup ∧
    ((performDeepSearchRun envLinkless ["http://a/", "http://b/"] ⟨some 2, some 3⟩).fetched.map
      Prod.fst).Nodup :=
  performDeepSearch_budget_dedup envLinkless ["http://a/", "http://b/"] 2 3
    (by decide) (by decide)

/-- C2 counterexample: a traversal seeded with one URL whose fetch fails
produces an EMPTY result list — the failed URL gets no entry at all (let
alone one with a non-empty error field; `PageContent` has no error
field), and it occupies no budget slot — even though the fetch was
attempted, as the instrumentation trace shows. -/
theorem performDeepSearch_failed_fetch_no_entry :
    performDeepSearch envFailAll ["http://a/"] ⟨some 1, some 5⟩ = [] ∧
    (performDeepSearchRun envFailAll ["http://a/"] ⟨some 1, some 5⟩).fetched =
      [("http://a/", 1)] := by
  constructor <;>
    simp [performDeepSearch, performDeepSearchRun, jsOr, deepSearchGo,
      extractContentFromUrl, extractContentFromUrlRun, envFailAll]

/-- C2 amended: in `performDeepSearch`, a URL whose fetch fails (the
fetch throws and the loop catches the error) contributes NO entry to the
result list — so it occupies no budget slot and, having produced no
page, expands the frontier by nothing. -/
theorem performDeepSearch_error_dropped (env : FetchEnv) (seeds : List String)
    (options : DeepSearchOptions) (url m : String)
    (h : env url = .newPageFails m ∨ env url = .navFails m ∨ env url = .evalFails m) :
    url ∉ (performDeepSearch env seeds options).map (fun p => p.url) := by
  intro hmem
  rcases List.mem_map.mp hmem with ⟨p, hp, hpu⟩
  unfold performDeepSearch performDeepSearchRun at hp
  rcases List.mem_map.mp hp with ⟨pr, hpr, hppr⟩
  have hok := deepSearchGo_results_ok env (jsOr options.depth 1) (jsOr options.maxPages 5)
    (seeds.map (fun u => (u, 1))) [] [] [] (by simp) pr hpr
  rw [hppr, hpu] at hok
  rcases h with h | h | h <;> rw [h] at hok <;> exact FetchBehavior.noConfusion hok

/-- C2 amended witness: with every fetch failing, the seed URL appears
nowhere in the results. -/
theorem performDeepSearch_error_dropped_witness :
    "http://a/" ∉ (performDeepSearch envFailAll ["http://a/"] ⟨some 1, some 5⟩).map
      (fun p => p.url) :=
  performDeepSearch_error_dropped envFailAll ["http://a/"] ⟨some 1, some 5⟩
    "http://a/" "net::ERR_TIMED_OUT" (Or.inr (Or.inl rfl))

/-- C5: results are produced in dequeue order of the FIFO frontier, which
is breadth first: the dequeue depths of the results are non-decreasing
(every page of depth d precedes every page of depth d + 1), and for the
concrete example of the specification — seeds A and B each linking to one
distinct page, maxDepth 2, maxPages 4 — the result order is exactly
[A, B, A-link, B-link]. -/
theorem performDeepSearch_breadth_order :
    (∀ (env : FetchEnv) (seeds : List String) (options : DeepSearchOptions),
      List.Pairwise (· ≤ ·)
        ((performDeepSearchRun env seeds options).results.map (fun p => p.2))) ∧
    performDeepSearch envBreadth ["http://a/", "http://b/"] ⟨some 2, some 4⟩ =
      [⟨"http://a/", "A", "", "ca", [⟨"http://a/1", "next"⟩]⟩,
       ⟨"http://b/", "B", "", "cb", [⟨"http://b/1", "next"⟩]⟩,
       ⟨"http://a/1", "A1", "", "ca1", []⟩,
       ⟨"http://b/1", "B1", "", "cb1", []⟩] := by
  constructor
  · intro env seeds options
    unfold performDeepSearchRun
    apply deepSearchGo_pairwise
    · rw [seeds_map_snd]
      simp only [List.map_nil, List.nil_append]
      rw [List.pairwise_replicate]
      exact Or.inr (le_refl _)
    · intro a ha b hb
      rcases List.mem_map.mp ha with ⟨u, _, hua⟩
      have hb2 := List.mem_of_mem_head? hb
      rcases List.mem_map.mp hb2 with ⟨v, _, hvb⟩
      rw [← hua, ← hvb]
      simp
  · simp [performDeepSearch, performDeepSearchRun, jsOr, deepSearchGo,
      extractContentFromUrl, extractContentFromUrlRun, envBreadth]

/-- C9: the traversal loop terminates, quantitatively: when every page
delivers at most L links, the number of loop iterations is bounded by
the number of seeds (initial queue length) plus maxPages * L (every
dequeue beyond the first enqueues is only possible because one of at
most maxPages successful fetches enqueued at most L links). -/
theorem performDeepSearch_terminates (env : FetchEnv) (seeds : List String)
    (options : DeepSearchOptions) (L : Nat)
    (hL : ∀ u, linkCount (env u) ≤ L) :
    (performDeepSearchRun env seeds options).steps ≤
      seeds.length + jsOr options.maxPages 5 * L := by
  unfold performDeepSearchRun
  have h := deepSearchGo_steps_le env (jsOr options.depth 1) (jsOr options.maxPages 5)
    (seeds.map (fun u => (u, 1))) [] [] [] L hL
  simpa using h

/-- C9 witness: a link-free environment satisfies the per-page link
bound with L = 0. -/
theorem performDeepSearch_terminates_witness :
    (performDeepSearchRun envLinkless ["http://a/"] ⟨some 1, some 5⟩).steps ≤
      1 + jsOr (some 5) 5 * 0 :=
  performDeepSearch_terminates envLinkless ["http://a/"] ⟨some 1, some 5⟩ 0
    (fun u => by simp [envLinkless, linkCount])

/-- C3 counterexample: the fetcher used by the traversal engine,
`extractContentFromUrl`, DOES throw to its caller: its catch block
rethrows, so a navigation failure propagates as an error instead of an
error-bearing page value being returned. -/
theorem extractContentFromUrl_throws :
    extractContentFromUrl envFailAll "http://a/" =
      Except.error "net::ERR_TIMED_OUT" := rfl

/-- C3 amended: the class fetcher `ContentExtractor.extractContent`
never throws and on any failure returns the URL with the neutral title
"Error", empty content, empty links and the failure message in `error`;
the utils/puppeteer fetcher `extractContentFromUrl` used by
`performDeepSearch` instead rethrows the failure to its caller. -/
theorem extractContent_error_contract (env : FetchEnv) (url m : String)
    (h : env url = .newPageFails m ∨ env url = .navFails m ∨ env url = .evalFails m) :
    ContentExtractor.extractContent env url = ⟨url, "Error", "", [], some m⟩ ∧
    extractContentFromUrl env url = Except.error m := by
  rcases h with h | h | h <;>
    simp [ContentExtractor.extractContent, ContentExtractor.extractContentRun,
      extractContentFromUrl, extractContentFromUrlRun, h]

/-- C3 amended witness: at a concrete failing URL. -/
theorem extractContent_error_contract_witness :
    ContentExtractor.extractContent envFailAll "http://a/" =
      ⟨"http://a/", "Error", "", [], some "net::ERR_TIMED_OUT"⟩ ∧
    extractContentFromUrl envFailAll "http://a/" =
      Except.error "net::ERR_TIMED_OUT" :=
  extractContent_error_contract envFailAll "http://a/" "net::ERR_TIMED_OUT"
    (Or.inr (Or.inl rfl))

/-- C4: in both fetchers, at most one page is acquired per call and
whenever a page was acquired, the final event before the call returns is
closing it — on the success path, the caught-error path (class fetcher)
and the rethrow path (puppeteer fetcher) alike.  When acquisition itself
fails no page is ever held. -/
theorem page_always_released (env : FetchEnv) (url : String) :
    ((extractContentFromUrlRun env url).1.count PageEvent.acquire ≤ 1 ∧
      (PageEvent.acquire ∈ (extractContentFromUrlRun env url).1 →
        (extractContentFromUrlRun env url).1.getLast? = some PageEvent.close)) ∧
    ((ContentExtractor.extractContentRun env url).1.count PageEvent.acquire ≤ 1 ∧
      (PageEvent.acquire ∈ (ContentExtractor.extractContentRun env url).1 →
        (ContentExtractor.extractContentRun env url).1.getLast? = some PageEvent.close)) := by
  cases h : env url <;>
    simp [extractContentFromUrlRun, ContentExtractor.extractContentRun, h]

/-- C4 witness: at a concrete environment and URL. -/
theorem page_always_released_witness :
    ((extractContentFromUrlRun envFailAll "http://a/").1.count PageEvent.acquire ≤ 1 ∧
      (PageEvent.acquire ∈ (extractContentFromUrlRun envFailAll "http://a/").1 →
        (extractContentFromUrlRun envFailAll "http://a/").1.getLast? =
          some PageEvent.close)) ∧
    ((ContentExtractor.extractContentRun envFailAll "http://a/").1.count
        PageEvent.acquire ≤ 1 ∧
      (PageEvent.acquire ∈ (ContentExtractor.extractContentRun envFailAll "http://a/").1 →
        (ContentExtractor.extractContentRun envFailAll "http://a/").1.getLast? =
          some PageEvent.close)) :=
  page_always_released envFailAll "http://a/"

/-- Whether the first character list starts with the second (the char
level of the JavaScript `startsWith`). -/
def charsHavePre : List Char → List Char → Bool
  | _, [] => true
  | [], _ :: _ => false
  | c :: cs, p :: ps => c == p && charsHavePre cs ps

/-- JavaScript `s.startsWith(pat)`, modelled on the character list so
that it evaluates by reduction. -/
def jsStartsWith (s pat : String) : Bool :=
  charsHavePre s.toList pat.toList

/-- Whether the second character list occurs inside the first. -/
def charsInclude : List Char → List Char → Bool
  | [], p => p.isEmpty
  | c :: cs, p => charsHavePre (c :: cs) p || charsInclude cs p

/-- JavaScript `s.includes(pat)`. -/
def jsIncludes (s pat : String) : Bool :=
  charsInclude s.toList pat.toList

/-- JavaScript `s.endsWith(pat)`. -/
def jsEndsWith (s pat : String) : Bool :=
  charsHavePre s.toList.reverse pat.toList.reverse

/-- JavaScript `s.trim()`: strip leading and trailing whitespace. -/
def jsTrim (s : String) : String :=
  String.mk (((s.toList.dropWhile Char.isWhitespace).reverse.dropWhile
    Char.isWhitespace).reverse)

/-- An `a[href]` element as the extractors read it: the raw href
attribute (absent when `getAttribute` returns null) and the visible
text content. -/
structure Anchor where
  href : Option String
  text : String
deriving Repr, DecidableEq

/-- The data the link extractors read from a rendered document: the
location href (the base URL resolution resolves against), the location
origin, and the anchor elements in document order. -/
structure Doc where
  locationHref : String
  origin : String
  anchors : List Anchor
deriving Repr, DecidableEq

/-- JavaScript `.replace(/\s+/g, ' ')`: every maximal run of whitespace
becomes a single space.  The flag records whether the previous character
belonged to a whitespace run. -/
def collapseWsGo : Bool → List Char → List Char
  | _, [] => []
  | inWs, c :: cs =>
    if c.isWhitespace then
      if inWs then collapseWsGo true cs else ' ' :: collapseWsGo true cs
    else c :: collapseWsGo false cs

def collapseWs (s : String) : String :=
  String.mk (collapseWsGo false s.toList)

/-- The URL denylist of `ContentExtractor.extractLinks`: admin/CDN path
fragments and common binary/image/archive extensions. -/
def isNonContentUrl (url : String) : Bool :=
  jsIncludes url "/cdn-cgi/" || jsIncludes url "/wp-admin/" ||
  jsEndsWith url ".jpg" || jsEndsWith url ".jpeg" || jsEndsWith url ".png" ||
  jsEndsWith url ".gif" || jsEndsWith url ".pdf" || jsEndsWith url ".zip"

/-- The anchor loop of `ContentExtractor.extractLinks`
(`src/content-extractor.ts` lines 197-244): resolve the href against
the location (the abstract `resolve` models `new URL(href,
window.location.href).toString()`), skip URLs that do not start with
"http" or were already seen, skip denylisted URLs, clean the text
(collapse whitespace, trim) and keep the link only when the text length
exceeds 1, recording the URL as seen. -/
def classLinksGo (resolve : String → String → String) (base : String) :
    List Anchor → List String → List Link
  | [], _ => []
  | a :: rest, seen =>
    match a.href with
    | none => classLinksGo resolve base rest seen
    | some href =>
      let url := resolve href base
      if !jsStartsWith url "http" || seen.contains url then
        classLinksGo resolve base rest seen
      else if isNonContentUrl url then
        classLinksGo resolve base rest seen
      else
        let text := jsTrim (collapseWs a.text)
        if 1 < text.length then
          ⟨url, text⟩ :: classLinksGo resolve base rest (url :: seen)
        else
          classLinksGo resolve base rest seen

namespace ContentExtractor

/-- `ContentExtractor.extractLinks`: the anchor loop followed by
`links.slice(0, 10)`. -/
def extractLinks (resolve : String → String → String) (doc : Doc) : List Link :=
  (classLinksGo resolve doc.locationHref doc.anchors []).take 10

end ContentExtractor

/-- `extractLinks` of `src/utils/content-extractor.ts` (lines 68-98):
skip absent hrefs and `javascript:`/`mailto:`/`tel:`/in-page-anchor
hrefs, resolve against the location href, take the trimmed text (falling
back to the URL when it trims to nothing), and keep the link only when
the text is nonempty and the URL starts with the origin of the document. -/
def extractLinks (resolve : String → String → String) (doc : Doc) : List Link :=
  doc.anchors.filterMap (fun a =>
    match a.href with
    | none => none
    | some href =>
      if jsStartsWith href "javascript:" || jsStartsWith href "mailto:" ||
          jsStartsWith href "tel:" || jsStartsWith href "#" then
        none
      else
        let url := resolve href doc.locationHref
        let text := if jsTrim a.text = "" then url else jsTrim a.text
        if text ≠ "" ∧ jsStartsWith url doc.origin = true then some ⟨url, text⟩ else none)

lemma classLinksGo_mem (resolve : String → String → String) (base : String)
    (anchors : List Anchor) :
    ∀ (seen : List String), ∀ l ∈ classLinksGo resolve base anchors seen,
      jsStartsWith l.url "http" = true ∧ isNonContentUrl l.url = false ∧
      1 < l.text.length ∧ l.url ∉ seen := by
  induction anchors with
  | nil =>
    intro seen l hl
    simp [classLinksGo] at hl
  | cons a rest ih =>
    intro seen l hl
    simp only [classLinksGo] at hl
    rcases a with ⟨href, atext⟩
    cases href with
    | none => exact ih seen l hl
    | some href =>
      simp only at hl
      by_cases h1 : (!jsStartsWith (resolve href base) "http" ||
          seen.contains (resolve href base)) = true
      · rw [if_pos h1] at hl
        exact ih seen l hl
      · rw [if_neg h1] at hl
        by_cases h2 : isNonContentUrl (resolve href base) = true
        · rw [if_pos h2] at hl
          exact ih seen l hl
        · rw [if_neg h2] at hl
          by_cases h3 : 1 < (jsTrim (collapseWs atext)).length
          · rw [if_pos h3] at hl
            simp only [Bool.or_eq_true, Bool.not_eq_true', not_or] at h1
            rcases List.mem_cons.mp hl with hl | hl
            · subst hl
              refine ⟨by simpa using h1.1, by simpa using h2, h3, ?_⟩
              have := h1.2
              simp at this
              exact this
            · have h4 := ih _ l hl
              refine ⟨h4.1, h4.2.1, h4.2.2.1, ?_⟩
              intro hc
              exact h4.2.2.2 (List.mem_cons_of_mem _ hc)
          · rw [if_neg h3] at hl
            exact ih seen l hl

lemma classLinksGo_nodup (resolve : String → String → String) (base : String)
    (anchors : List Anchor) :
    ∀ (seen : List String),
      ((classLinksGo resolve base anchors seen).map (fun l => l.url)).Nodup := by
  induction anchors with
  | nil =>
    intro seen
    simp [classLinksGo]
  | cons a rest ih =>
    intro seen
    simp only [classLinksGo]
    rcases a with ⟨href, atext⟩
    cases href with
    | none => exact ih seen
    | some href =>
      simp only
      by_cases h1 : (!jsStartsWith (resolve href base) "http" ||
          seen.contains (resolve href base)) = true
      · rw [if_pos h1]
        exact ih seen
      · rw [if_neg h1]
        by_cases h2 : isNonContentUrl (resolve href base) = true
        · rw [if_pos h2]
          exact ih seen
        · rw [if_neg h2]
          by_cases h3 : 1 < (jsTrim (collapseWs atext)).length
          · rw [if_pos h3]
            simp only [List.map_cons, List.nodup_cons]
            refine ⟨?_, ih _⟩
            intro hc
            rcases List.mem_map.mp hc with ⟨l, hl, hlu⟩
            have h4 := classLinksGo_mem resolve base rest (resolve href base :: seen) l hl
            exact h4.2.2.2 (by rw [hlu]; exact List.mem_cons_self _ _)
          · rw [if_neg h3]
            exact ih seen

/-- The concrete resolver used in the counterexamples: an in-page
anchor href resolves to the page URL followed by the fragment, anything
else is taken as already absolute. -/
def resolveSuffix : String → String → String := fun href base =>
  if jsStartsWith href "#" then base ++ href else href

/-- A document containing one pure in-page anchor. -/
def docAnchorOnly : Doc :=
  ⟨"http://example.com/page", "http://example.com", [⟨some "#top", "Top section"⟩]⟩

/-- C7 counterexample: a pure in-page anchor (`href="#top"`) is NOT
discarded by `ContentExtractor.extractLinks`: it resolves against the
page URL to an absolute http URL and is returned. -/
theorem extractLinks_keeps_inpage_anchor :
    ContentExtractor.extractLinks resolveSuffix docAnchorOnly =
      [⟨"http://example.com/page#top", "Top section"⟩] := by
  rfl

/-- C7 amended: `ContentExtractor.extractLinks` returns at most 10
links, returns no URL twice, and every returned link has a URL starting
with "http" (so `javascript:` and other non-http schemes are discarded —
but pure in-page anchors, once resolved to absolute http URLs, are
retained), has none of the denylisted binary/image/archive extensions or
admin/CDN path fragments, and has cleaned visible text of length at
least 2 (in particular never empty or whitespace-only). -/
theorem extractLinks_filtered (resolve : String → String → String) (doc : Doc) :
    (ContentExtractor.extractLinks resolve doc).length ≤ 10 ∧
    ((ContentExtractor.extractLinks resolve doc).map (fun l => l.url)).Nodup ∧
    ∀ l ∈ ContentExtractor.extractLinks resolve doc,
      jsStartsWith l.url "http" = true ∧ isNonContentUrl l.url = false ∧
      1 < l.text.length := by
  refine ⟨?_, ?_, ?_⟩
  · simp [ContentExtractor.extractLinks, List.length_take]
  · exact List.Nodup.sublist
      (List.Sublist.map _ (List.take_sublist _ _))
      (classLinksGo_nodup resolve doc.locationHref doc.anchors [])
  · intro l hl
    have hm := classLinksGo_mem resolve doc.locationHref doc.anchors [] l
      (List.mem_of_mem_take hl)
    exact ⟨hm.1, hm.2.1, hm.2.2.1⟩

/-- C10: every link returned by the link extractor the traversal engine
uses (the utils variant) has a URL that starts with the origin of the
document itself; consequently, in a traversal whose environment only delivers
links related to their page by a provenance relation — as the
same-origin filter guarantees with R parent link := link starts with
origin of the parent — every fetched URL is a seed or so related to a
fetched page.  The specification never states this restriction. -/
theorem crawl_same_origin (resolve : String → String → String) (doc : Doc)
    (env : FetchEnv) (seeds : List String) (options : DeepSearchOptions)
    (originOf : String → String)
    (H : ∀ url t de c ls, env url = .ok t de c ls →
      ∀ l ∈ ls, jsStartsWith l.url (originOf url) = true) :
    (∀ l ∈ extractLinks resolve doc, jsStartsWith l.url doc.origin = true) ∧
    (∀ f ∈ (performDeepSearchRun env seeds options).fetched,
      f.1 ∈ seeds ∨ ∃ g ∈ (performDeepSearchRun env seeds options).fetched,
        jsStartsWith f.1 (originOf g.1) = true) := by
  constructor
  · intro l hl
    rcases List.mem_filterMap.mp hl with ⟨a, ha, hal⟩
    rcases a with ⟨href, atext⟩
    cases href with
    | none => simp at hal
    | some href =>
      simp only at hal
      by_cases h1 : (jsStartsWith href "javascript:" || jsStartsWith href "mailto:" ||
          jsStartsWith href "tel:" || jsStartsWith href "#") = true
      · rw [if_pos h1] at hal
        exact absurd hal (by simp)
      · rw [if_neg h1] at hal
        by_cases h2 : (if jsTrim atext = "" then resolve href doc.locationHref
              else jsTrim atext) ≠ "" ∧
            jsStartsWith (resolve href doc.locationHref) doc.origin = true
        · rw [if_pos h2] at hal
          have hlv : l = ⟨resolve href doc.locationHref,
              if jsTrim atext = "" then resolve href doc.locationHref
              else jsTrim atext⟩ := by
            exact (Option.some.injEq _ _).mp hal |>.symm
          rw [hlv]
          exact h2.2
        · rw [if_neg h2] at hal
          exact absurd hal (by simp)
  · unfold performDeepSearchRun
    apply deepSearchGo_origin env (jsOr options.depth 1) (jsOr options.maxPages 5)
      (seeds.map (fun u => (u, 1))) [] [] []
      (fun parent u => jsStartsWith u (originOf parent) = true) (· ∈ seeds) H
    · intro e he
      rcases List.mem_map.mp he with ⟨u, hu, hue⟩
      exact Or.inl (by rw [← hue]; exact hu)
    · intro f hfm
      simp at hfm

/-- C10 witness: a link-free environment trivially satisfies the
provenance hypothesis, and the seed URL is (trivially) a seed. -/
theorem crawl_same_origin_witness :
    "http://a/" ∈ ["http://a/"] ∨
      ∃ g ∈ (performDeepSearchRun envLinkless ["http://a/"] ⟨some 1, some 5⟩).fetched,
        jsStartsWith "http://a/" ((fun _ => "http://a") g.1) = true := by
  have hH : ∀ url t de c ls, envLinkless url = .ok t de c ls →
      ∀ l ∈ ls, jsStartsWith l.url ((fun _ => "http://a") url) = true := by
    intro url t de c ls hok l hl
    simp [envLinkless] at hok
    rcases hok with ⟨-, -, -, h4⟩
    rw [h4] at hl
    simp at hl
  have h := (crawl_same_origin resolveSuffix docAnchorOnly envLinkless ["http://a/"]
    ⟨some 1, some 5⟩ (fun _ => "http://a") hH).2 ("http://a/", 1)
    (by simp [performDeepSearchRun, jsOr, deepSearchGo, extractContentFromUrl,
      extractContentFromUrlRun, envLinkless])
  exact h

/-- What the main-content selector walks read from a document: for each
CSS selector, the text contents of its matching elements in document
order (`querySelectorAll`; `querySelector` is its head).  An element is
represented by its text content. -/
structure SelectorDoc where
  queryAll : String → List String

/-- The selector priority list of `ContentExtractor.extractMainContent`
(`src/content-extractor.ts`). -/
def contentSelectors : List String :=
  ["article", "main", ".post-content", ".entry-content", ".content", "#content",
   ".post", ".article", ".blog-post"]

/-- The `elements.forEach` largest-element scan of
`ContentExtractor.extractMainContent`: start from no element and length
0, replace whenever the text of an element is strictly longer. -/
def maxByTextLength (elems : List String) : Option String :=
  (elems.foldl (fun acc el => if acc.2 < el.length then (some el, el.length) else acc)
    ((none : Option String), 0)).1

/-- The selector loop of `ContentExtractor.extractMainContent`
(`src/content-extractor.ts` lines 104-131): a unique match is selected
immediately; several matches select the strictly-largest one (none when
every match is empty, falling through to the next selector); no match
falls through. -/
def selectContentLoop (doc : SelectorDoc) : List String → Option String
  | [] => none
  | sel :: rest =>
    let elements := doc.queryAll sel
    if elements.length = 1 then elements.head?
    else if 1 < elements.length then
      match maxByTextLength elements with
      | some m => some m
      | none => selectContentLoop doc rest
    else selectContentLoop doc rest

/-- The class selector walk applied to the full priority list. -/
def selectContentElement (doc : SelectorDoc) : Option String :=
  selectContentLoop doc contentSelectors

/-- The selector priority list of the utils `extractMainContent`
(`src/utils/content-extractor.ts`). -/
def utilsContentSelectors : List String :=
  ["article", "main", ".content", "#content", ".post-content", ".entry-content",
   ".article-content", ".article-body", ".post-body"]

/-- The selector loop of the utils `extractMainContent`
(`src/utils/content-extractor.ts` lines 42-47): take the FIRST match of
each selector and select it only when its trimmed text exceeds 100
characters, returning the trimmed text. -/
def utilsSelectLoop (doc : SelectorDoc) : List String → Option String
  | [] => none
  | sel :: rest =>
    match (doc.queryAll sel).head? with
    | some el =>
      if 100 < (jsTrim el).length then some (jsTrim el) else utilsSelectLoop doc rest
    | none => utilsSelectLoop doc rest

/-- The utils selector walk applied to its full priority list. -/
def utilsSelectContent (doc : SelectorDoc) : Option String :=
  utilsSelectLoop doc utilsContentSelectors

lemma maxByFold_spec (l : List String) (b : Option String) (n : Nat) :
    ((l.foldl (fun acc el => if acc.2 < el.length then (some el, el.length) else acc)
        (b, n)).1 = b ∧
      (l.foldl (fun acc el => if acc.2 < el.length then (some el, el.length) else acc)
        (b, n)).2 = n ∨
      ∃ s ∈ l, (l.foldl (fun acc el => if acc.2 < el.length then (some el, el.length) else acc)
          (b, n)).1 = some s ∧
        (l.foldl (fun acc el => if acc.2 < el.length then (some el, el.length) else acc)
          (b, n)).2 = s.length) ∧
    n ≤ (l.foldl (fun acc el => if acc.2 < el.length then (some el, el.length) else acc)
      (b, n)).2 ∧
    ∀ e ∈ l, e.length ≤
      (l.foldl (fun acc el => if acc.2 < el.length then (some el, el.length) else acc)
        (b, n)).2 := by
  induction l generalizing b n with
  | nil => simp
  | cons x xs ih =>
    simp only [List.foldl_cons]
    by_cases h : n < x.length
    · rw [if_pos (by simpa using h)]
      rcases ih (some x) x.length with ⟨h1, h2, h3⟩
      refine ⟨?_, by omega, ?_⟩
      · rcases h1 with ⟨ha, hb⟩ | ⟨s, hs, ha, hb⟩
        · exact Or.inr ⟨x, by simp, ha, hb⟩
        · exact Or.inr ⟨s, by simp [hs], ha, hb⟩
      · intro e he
        rcases List.mem_cons.mp he with he | he
        · subst he
          omega
        · exact h3 e he
    · rw [if_neg (by simpa using h)]
      rcases ih b n with ⟨h1, h2, h3⟩
      refine ⟨?_, h2, ?_⟩
      · rcases h1 with ⟨ha, hb⟩ | ⟨hs2, hs, ha, hb⟩
        · exact Or.inl ⟨ha, hb⟩
        · exact Or.inr ⟨hs2, List.mem_cons_of_mem _ hs, ha, hb⟩
      · intro e he
        rcases List.mem_cons.mp he with he | he
        · subst he
          omega
        · exact h3 e he

lemma maxByTextLength_spec (l : List String) (m : String)
    (h : maxByTextLength l = some m) :
    m ∈ l ∧ ∀ e ∈ l, e.length ≤ m.length := by
  unfold maxByTextLength at h
  rcases maxByFold_spec l none 0 with ⟨h1, -, h3⟩
  rcases h1 with ⟨ha, -⟩ | ⟨s, hs, ha, hb⟩
  · rw [h] at ha
    exact absurd ha (by simp)
  · rw [h] at ha
    injection ha with hsm
    subst hsm
    refine ⟨hs, ?_⟩
    intro e he
    have h4 := h3 e he
    omega

/-- A document whose unique `article` match has only two characters of
text. -/
def docC8short : SelectorDoc := ⟨fun sel => if sel = "article" then ["hi"] else []⟩

/-- C8 counterexample: the class selector walk selects a unique
`article` match IMMEDIATELY even though its trimmed text length (2) is
far below the claimed 100-character threshold — the threshold is not
checked on the unique-match path. -/
theorem selectContent_short_unique :
    selectContentElement docC8short = some "hi" ∧ ¬ 100 < (jsTrim "hi").length := by
  constructor
  · rfl
  · decide

/-- A >100-character article text. -/
def c8ArticleText : String :=
  "This article explains how a breadth first crawler visits pages, extracts readable content, follows hyperlinks to a bounded depth, and enforces a page budget across the traversal."

/-- The example document of the specification: one `article` container with
more than 100 characters of text, plus unrelated nav/footer markup. -/
def docC8example : SelectorDoc :=
  ⟨fun sel =>
    if sel = "article" then [c8ArticleText]
    else if sel = "nav" then ["Home About Contact"]
    else if sel = "footer" then ["Copyright"]
    else []⟩

/-- A document with several `article` matches of distinct lengths. -/
def docC8multi : SelectorDoc :=
  ⟨fun sel => if sel = "article" then ["aa", "bbbb", "c"] else []⟩

set_option maxRecDepth 8192 in
/-- C8 amended: in the class selector walk a unique match of the first
selector is selected immediately regardless of its text length, and with
several matches the one of strictly greatest text length is selected; in
the utils selector walk the 100-character threshold exists but is
applied to the FIRST match of each selector (`querySelector`), not to a
unique match; for the example document — a unique >100-character
article container and unrelated nav/footer markup — the walk yields
exactly the text of the article container. -/
theorem extractMainContent_selection (doc1 doc2 doc3 : SelectorDoc)
    (t u : String) (elems : List String) (m : String)
    (h1 : doc1.queryAll "article" = [t])
    (h2 : doc2.queryAll "article" = elems)
    (h3 : 2 ≤ elems.length)
    (h4 : maxByTextLength elems = some m)
    (h5 : (doc3.queryAll "article").head? = some u)
    (h6 : 100 < (jsTrim u).length) :
    selectContentElement doc1 = some t ∧
    (selectContentElement doc2 = some m ∧ m ∈ elems ∧ ∀ e ∈ elems, e.length ≤ m.length) ∧
    utilsSelectContent doc3 = some (jsTrim u) ∧
    (100 < c8ArticleText.length ∧
      selectContentElement docC8example = some c8ArticleText) := by
  refine ⟨?_, ⟨?_, (maxByTextLength_spec elems m h4).1, (maxByTextLength_spec elems m h4).2⟩,
    ?_, by decide, ?_⟩
  · show selectContentLoop doc1 contentSelectors = some t
    simp only [contentSelectors, selectContentLoop, h1]
    simp
  · show selectContentLoop doc2 contentSelectors = some m
    simp only [contentSelectors, selectContentLoop, h2]
    rw [if_neg (by omega), if_pos (by omega), h4]
  · show utilsSelectLoop doc3 utilsContentSelectors = some (jsTrim u)
    simp only [utilsContentSelectors, utilsSelectLoop, h5]
    rw [if_pos h6]
  · rfl

set_option maxRecDepth 8192 in
/-- C8 amended witness: concrete documents for each of the three walk
behaviors. -/
theorem extractMainContent_selection_witness :
    selectContentElement docC8short = some "hi" ∧
    (selectContentElement docC8multi = some "bbbb" ∧ "bbbb" ∈ ["aa", "bbbb", "c"] ∧
      ∀ e ∈ ["aa", "bbbb", "c"], e.length ≤ "bbbb".length) ∧
    utilsSelectContent docC8example = some (jsTrim c8ArticleText) ∧
    (100 < c8ArticleText.length ∧
      selectContentElement docC8example = some c8ArticleText) :=
  extractMainContent_selection docC8short docC8multi docC8example "hi" c8ArticleText
    ["aa", "bbbb", "c"] "bbbb" rfl rfl (by decide) rfl rfl (by decide)

/-- Parameter handling of the `deep-search` tool handler
(`src/tools/deep-search.ts` lines 24-29).  The input models the value
`parseInt(String(x))` produces for the requested parameter: `none`
stands for an absent parameter or one whose string representation does
not parse (`parseInt` yields `NaN`, which is falsy, as is a parsed 0).
`maxResults = Math.min(Math.max(1, parseInt(String(results)) || 3), 10)`
with destructuring default `results = 3`. -/
def handlerMaxResults (results : Option Int) : Int :=
  let raw : Int := match results with | none => 3 | some n => n
  let parsed : Int := if raw = 0 then 3 else raw
  min (max 1 parsed) 10

/-- `maxDepth = Math.min(Math.max(1, parseInt(String(depth)) || 1), 3)`
with destructuring default `depth = 1`. -/
def handlerMaxDepth (depth : Option Int) : Int :=
  let raw : Int := match depth with | none => 1 | some n => n
  let parsed : Int := if raw = 0 then 1 else raw
  min (max 1 parsed) 3

/-- C6 counterexample: requesting `results = 0` yields 3 — the
JavaScript `|| 3` treats the parsed 0 as falsy and substitutes the
default — whereas clamping 0 into [1, 10] would yield 1. -/
theorem handlerMaxResults_zero_is_default :
    handlerMaxResults (some 0) = 3 ∧ min (max 1 (0 : Int)) 10 = 1 := by
  constructor
  · rfl
  · decide

/-- C6 amended: any requested nonzero integer value is clamped to
[1, 10] for results and [1, 3] for depth; an absent, unparsable or ZERO
value falls back to the defaults 3 (results) and 1 (depth) — for depth
the claimed clamp-of-0 and the actual default coincide at 1, for results
they differ (0 gives 3, not 1); in particular results = 50 gives 10 and
depth = 0 gives 1. -/
theorem handler_clamps (n : Int) (hn : n ≠ 0) :
    handlerMaxResults (some n) = min (max 1 n) 10 ∧
    handlerMaxDepth (some n) = min (max 1 n) 3 ∧
    handlerMaxResults none = 3 ∧ handlerMaxDepth none = 1 ∧
    handlerMaxResults (some 0) = 3 ∧ handlerMaxDepth (some 0) = 1 ∧
    handlerMaxResults (some 50) = 10 ∧ handlerMaxDepth (some 0) = 1 := by
  refine ⟨?_, ?_, by decide, by decide, by decide, by decide, by decide, by decide⟩
  · simp [handlerMaxResults, hn]
  · simp [handlerMaxDepth, hn]

/-- C6 amended witness: at the concrete nonzero request 50. -/
theorem handler_clamps_witness :
    handlerMaxResults (some 50) = min (max 1 50) 10 ∧
    handlerMaxDepth (some 50) = min (max 1 50) 3 ∧
    handlerMaxResults none = 3 ∧ handlerMaxDepth none = 1 ∧
    handlerMaxResults (some 0) = 3 ∧ handlerMaxDepth (some 0) = 1 ∧
    handlerMaxResults (some 50) = 10 ∧ handlerMaxDepth (some 0) = 1 :=
  handler_clamps 50 (by decide)
